import Mathlib

/-!
go-middleware: a verification development.

A shallow embedding of the middleware package (`apply.go`, `types.go`,
`header_writer.go`, `store.go`, `timeout.go`) together with theorems about it.

Modelling conventions.

* A Go `string` / `[]byte` is a list of bytes (`Bytes`); the conversion
  `[]byte(s)` is the identity.
* An `http.ResponseWriter` that a handler is served with (the real response
  sink) is a `Sink`: its header collection, the list of `WriteHeader` / `Write`
  calls it has received so far (oldest first), and an oracle telling whether a
  `Write` call reports an error.  The byte count returned by the sink's `Write`
  is discarded at every call site of the package, so only the error is kept.
* An `http.Handler` is a function from the writer and the request to the writer
  after the call; a `Layer` is a function from handlers to handlers.
* Every method of `timeoutResponseWriter` runs under the writer's mutex, so each
  method is one atomic step on the record of its fields.
-/

namespace Middleware

/-! ## Bytes -/

/-- A Go byte slice or string: a finite sequence of bytes. -/
abbrev Bytes := List UInt8

/-- The bytes of an ASCII string literal. -/
def bytesOf (s : String) : Bytes := s.toList.map (fun c => c.toNat.toUInt8)

/-! ## The response sink (`http.ResponseWriter`, `http.Header`) -/

/-- The header collection `http.Header`: canonical field name to values. -/
abbrev Header := List (String × List String)

/-- The token bytes of RFC 7230 that `textproto` accepts in a field name. -/
def validHeaderFieldByte (c : Char) : Bool :=
  c.isAlphanum ||
    [33, 35, 36, 37, 38, 39, 42, 43, 45, 46, 94, 95, 96, 124, 126].contains c.toNat

/-- The letter case pass of `textproto.CanonicalMIMEHeaderKey`: the first letter and
every letter after a hyphen in upper case, every other letter in lower case. -/
def canonicalCase : Bool → List Char → List Char
  | _, [] => []
  | upper, c :: cs =>
    (if upper then c.toUpper else c.toLower) :: canonicalCase (c == '-') cs

/-- The function `textproto.CanonicalMIMEHeaderKey`: a name with a byte that is not a
token byte is returned unchanged. -/
def CanonicalMIMEHeaderKey (s : String) : String :=
  if s.toList.all validHeaderFieldByte then String.mk (canonicalCase true s.toList) else s

/-- The method `Header.Del`: removes the values of the canonical form of the key. -/
def Header.Del (h : Header) (key : String) : Header :=
  h.filter (fun kv => kv.1 != CanonicalMIMEHeaderKey key)

/-- The method `Header.Set`: the canonical form of the key now has the single value. -/
def Header.Set (h : Header) (key value : String) : Header :=
  (CanonicalMIMEHeaderKey key, [value]) :: Header.Del h key

/-- The method `Header.Get`: the first value of the canonical form of the key, or the
empty string. -/
def Header.Get (h : Header) (key : String) : String :=
  match h.lookup (CanonicalMIMEHeaderKey key) with
  | some (v :: _) => v
  | _ => ""

/-- A call received by the sink: `WriteHeader(code)` or `Write(b)`. -/
inductive SinkCall where
  | WriteHeader (statusCode : Int)
  | Write (b : Bytes)
  deriving DecidableEq, Repr

/-- The real response sink: the `http.ResponseWriter` a handler is served with. -/
structure Sink where
  /-- The header collection returned by `Header()`. -/
  header : Header := []
  /-- The `WriteHeader` and `Write` calls received so far, oldest first. -/
  calls : List SinkCall := []
  /-- Whether a `Write` of the given bytes, after the given calls, reports an error. -/
  writeFails : List SinkCall → Bytes → Bool := fun _ _ => false

/-- The method `WriteHeader` of the sink. -/
def Sink.WriteHeader (w : Sink) (statusCode : Int) : Sink :=
  { w with calls := w.calls ++ [SinkCall.WriteHeader statusCode] }

/-- The method `Write` of the sink: the sink after the call, and whether the call
reported an error. -/
def Sink.Write (w : Sink) (b : Bytes) : Sink × Bool :=
  ({ w with calls := w.calls ++ [SinkCall.Write b] }, w.writeFails w.calls b)

/-- A sink whose every `Write` reports an error. -/
def failingSink : Sink := { writeFails := fun _ _ => true }

/-- The status codes passed to `WriteHeader` in a list of calls, in call order. -/
def statuses : List SinkCall → List Int
  | [] => []
  | SinkCall.WriteHeader c :: cs => c :: statuses cs
  | SinkCall.Write _ :: cs => statuses cs

/-- The bytes passed to `Write` in a list of calls, concatenated in call order. -/
def written : List SinkCall → Bytes
  | [] => []
  | SinkCall.WriteHeader _ :: cs => written cs
  | SinkCall.Write b :: cs => b ++ written cs

/-- The function `http.Error`: replies with the plain text message and the code. -/
def httpError (w : Sink) (error : Bytes) (code : Int) : Sink :=
  let h := w.header
  let h := Header.Del h "Content-Length"
  let h := Header.Set h "Content-Type" "text/plain; charset=utf-8"
  let h := Header.Set h "X-Content-Type-Options" "nosniff"
  let w := { w with header := h }
  let w := Sink.WriteHeader w code
  (Sink.Write w (error ++ [10])).1

/-- The constant `http.StatusOK`. -/
def StatusOK : Int := 200

/-- The constant `http.StatusInternalServerError`. -/
def StatusInternalServerError : Int := 500

/-- The constant `http.StatusGatewayTimeout`. -/
def StatusGatewayTimeout : Int := 504

/-! ## Requests and contexts (`context.Context`, `http.Request`)

Go values stored in a context are interface values (`any`): nil, or a value of a
concrete (dynamic) type.  Text that is only a key or a stored payload is a Lean
`String`. -/

/-- The type `ContextKey`, declared as `type ContextKey string`. -/
abbrev ContextKey := String

/-- The concrete (non-interface) types of the values considered: `int`, `string`,
`bool`, the named string type `ContextKey`, and `time.Duration`, a type with a
`String` method. -/
inductive ConcreteType where
  | int
  | string
  | bool
  | contextKey
  | duration
  deriving DecidableEq, Repr

/-- A value of a concrete type. -/
inductive Value where
  | int (n : Int)
  | string (s : String)
  | bool (b : Bool)
  | contextKey (k : ContextKey)
  | duration (d : Int)
  deriving DecidableEq, Repr

/-- The dynamic type of a value. -/
def Value.dynType : Value → ConcreteType
  | Value.int _ => ConcreteType.int
  | Value.string _ => ConcreteType.string
  | Value.bool _ => ConcreteType.bool
  | Value.contextKey _ => ConcreteType.contextKey
  | Value.duration _ => ConcreteType.duration

/-- The zero value of a concrete type. -/
def ConcreteType.zero : ConcreteType → Value
  | ConcreteType.int => Value.int 0
  | ConcreteType.string => Value.string ""
  | ConcreteType.bool => Value.bool false
  | ConcreteType.contextKey => Value.contextKey ""
  | ConcreteType.duration => Value.duration 0

/-- An interface value (`any`): `none` is the nil interface, `some v` holds the
value `v` with its dynamic type. -/
abbrev Any := Option Value

/-- A type argument for `T any`: a concrete type, or an interface type given by the
concrete types that implement it. -/
inductive GoType where
  | concrete (c : ConcreteType)
  | iface (implementedBy : ConcreteType → Bool)

/-- The interface type `any`, implemented by every type. -/
def GoType.any : GoType := GoType.iface (fun _ => true)

/-- The interface type `fmt.Stringer`, implemented here by `time.Duration` only. -/
def GoType.stringer : GoType := GoType.iface (fun c => c == ConcreteType.duration)

/-- Whether a value of dynamic type `d` can be asserted to the type: the types are
identical (concrete type) or `d` implements the type (interface type). -/
def GoType.holds : GoType → ConcreteType → Bool
  | GoType.concrete c, d => d == c
  | GoType.iface implementedBy, d => implementedBy d

/-- The zero value of a type, as held in a variable of that type: the zero value of a
concrete type, the nil interface for an interface type. -/
def GoType.zero : GoType → Any
  | GoType.concrete c => some c.zero
  | GoType.iface _ => none

/-- A variable of static type `T` holds `x`: a value of that concrete type, or, for
an interface type, nil or a value whose type implements it. -/
def HasType (T : GoType) (x : Any) : Prop :=
  match T, x with
  | GoType.concrete c, some v => v.dynType = c
  | GoType.concrete _, none => False
  | GoType.iface implementedBy, some v => implementedBy v.dynType = true
  | GoType.iface _, none => True

/-- The comma-ok type assertion `x.(T)`: the value and true when `x` is not nil and
its dynamic type is `T` or implements `T`, else the zero value of `T` and false. -/
def typeAssert (T : GoType) (x : Any) : Any × Bool :=
  match x with
  | none => (T.zero, false)
  | some v => if T.holds v.dynType then (some v, true) else (T.zero, false)

/-- A non-nil `context.Context`, as seen by lookups with a `ContextKey`: the values
attached with such keys, innermost (latest `WithValue`) first.  The empty list
is `context.Background()`. -/
abbrev Context := List (ContextKey × Any)

/-- The function `context.Background`. -/
def Context.Background : Context := []

/-- The function `context.WithValue`. -/
def Context.WithValue (parent : Context) (key : ContextKey) (val : Any) : Context :=
  (key, val) :: parent

/-- The method `Value` of a context: the value of the innermost entry with that key,
nil when there is none. -/
def Context.Value : Context → ContextKey → Any
  | [], _ => none
  | (k, v) :: parent, key => if k = key then v else Context.Value parent key

/-- An `http.Request`: the fields the package reads. -/
structure Request where
  /-- The request method. -/
  Method : String := "GET"
  /-- The request target. -/
  URL : String := "/"
  /-- The request context. -/
  ctx : Context := []
  deriving DecidableEq, Repr

/-- The method `Request.Context`. -/
def Request.Context (r : Request) : Middleware.Context := r.ctx

/-- The method `Request.WithContext`: a shallow copy with the context replaced. -/
def Request.WithContext (r : Request) (ctx : Middleware.Context) : Request :=
  { r with ctx := ctx }

/-! ## types.go, apply.go -/

/-- An `http.Handler`: method `ServeHTTP(w, r)`, giving the writer after the call. -/
abbrev Handler := Sink → Request → Sink

/-- The type `Layer`. -/
abbrev Layer := Handler → Handler

/-- The function `Apply`: the loop `for _, l := range layers { target = l(target) }`. -/
def Apply (target : Handler) : List Layer → Handler
  | [] => target
  | l :: layers => Apply (l target) layers

/-- The nesting `Ln(Ln-1(...L1(t)...))` of the layers `[L1, ..., Ln]` around `t`,
written from the outermost layer inwards. -/
def nested (t : Handler) (layers : List Layer) : Handler :=
  layers.reverse.foldr (fun l h => l h) t

/-- The test helper `testMiddleware`: writes the label, then calls the next handler. -/
def testMiddleware (label : Bytes) : Layer :=
  fun next => fun w r => next (w.Write label).1 r

/-- The terminal handler of the tests: writes its output and returns. -/
def finalHandler (output : Bytes) : Handler :=
  fun w _ => (w.Write output).1

/-- The writer after `Write` calls with the given byte slices, in order. -/
def writeAll (w : Sink) : List Bytes → Sink
  | [] => w
  | b :: bs => writeAll (w.Write b).1 bs

/-! ## store.go -/

/-- The function `WithStore`: the value is attached to the request context under
the key, and the next handler is served with the new request. -/
def WithStore (_T : GoType) (key : ContextKey) (value : Any) : Layer :=
  fun next => fun w r =>
    let ctx := Context.WithValue r.Context key value
    next w (r.WithContext ctx)

/-- The function `GetStoreFromContext`: `val, ok := ctx.Value(key).(T)`. -/
def GetStoreFromContext (T : GoType) (ctx : Context) (key : ContextKey) : Any × Bool :=
  typeAssert T (ctx.Value key)

/-! ## timeout.go -/

/-- The struct `timeoutResponseWriter` (the mutex is the atomicity of each method). -/
structure timeoutResponseWriter where
  /-- The underlying writer. -/
  w : Sink
  /-- The buffered output. -/
  buf : Bytes := []
  /-- Whether a status has been recorded. -/
  wroteHdr : Bool := false
  /-- The recorded status. -/
  status : Int := 0
  /-- Whether the timeout was signalled. -/
  timedOut : Bool := false

/-- The method `Header`: the header collection of the underlying writer. -/
def timeoutResponseWriter.Header (trw : timeoutResponseWriter) : Header :=
  trw.w.header

/-- The method `WriteHeader`: records the status code, once. -/
def timeoutResponseWriter.WriteHeader (trw : timeoutResponseWriter) (statusCode : Int) :
    timeoutResponseWriter :=
  if trw.wroteHdr then trw
  else { trw with wroteHdr := true, status := statusCode }

/-- The method `Write`: the writer after the call, the count returned and whether the
error returned is non-nil.  `bytes.Buffer.Write` appends and returns the length and
a nil error. -/
def timeoutResponseWriter.Write (trw : timeoutResponseWriter) (b : Bytes) :
    timeoutResponseWriter × Nat × Bool :=
  if trw.timedOut then (trw, 0, false)
  else
    let trw := if !trw.wroteHdr then { trw with wroteHdr := true, status := StatusOK } else trw
    ({ trw with buf := trw.buf ++ b }, b.length, false)

/-- The method `Flush`: sends the recorded status and the buffered bytes to the
underlying writer, and a 500 status when that write reports an error. -/
def timeoutResponseWriter.Flush (trw : timeoutResponseWriter) : timeoutResponseWriter :=
  if trw.timedOut then trw
  else
    let w := trw.w.WriteHeader trw.status
    let res := w.Write trw.buf
    if res.2 then { trw with w := res.1.WriteHeader StatusInternalServerError }
    else { trw with w := res.1 }

/-- A call the next handler makes on the writer it is served with. -/
inductive HandlerCall where
  | WriteHeader (statusCode : Int)
  | Write (b : Bytes)
  deriving DecidableEq, Repr

/-- One call of the handler on the buffered writer. -/
def timeoutResponseWriter.call (trw : timeoutResponseWriter) : HandlerCall → timeoutResponseWriter
  | HandlerCall.WriteHeader statusCode => trw.WriteHeader statusCode
  | HandlerCall.Write b => (trw.Write b).1

/-- A sequence of calls of the handler on the buffered writer, in order. -/
def timeoutResponseWriter.run (trw : timeoutResponseWriter) : List HandlerCall → timeoutResponseWriter
  | [] => trw
  | c :: cs => timeoutResponseWriter.run (trw.call c) cs

/-- The writer `&timeoutResponseWriter{w: w}` that `WithTimeout` creates. -/
def newTimeoutResponseWriter (w : Sink) : timeoutResponseWriter := { w := w }

/-- The branch `case <-done:` of `WithTimeout`: the handler finished first. -/
def WithTimeout.caseDone (trw : timeoutResponseWriter) : timeoutResponseWriter :=
  trw.Flush

/-- The branch `case <-ctx.Done():` of `WithTimeout`: the writer is marked timed out
and the timeout reply is written to the underlying writer `w`. -/
def WithTimeout.caseCtxDone (trw : timeoutResponseWriter) : timeoutResponseWriter :=
  let trw := { trw with timedOut := true }
  { trw with w := httpError trw.w (bytesOf "Request timed out") StatusGatewayTimeout }

/-- The status the handler commits with a sequence of calls: the code of a leading
`WriteHeader`, 200 when a `Write` comes first. -/
def committedStatus : List HandlerCall → Option Int
  | [] => none
  | HandlerCall.WriteHeader c :: _ => some c
  | HandlerCall.Write _ :: _ => some 200

/-- The byte slices the handler wrote with a sequence of calls, concatenated in call
order. -/
def writtenBytes : List HandlerCall → Bytes
  | [] => []
  | HandlerCall.WriteHeader _ :: cs => writtenBytes cs
  | HandlerCall.Write b :: cs => b ++ writtenBytes cs

/-- The call `trw.Header().Set(key, value)` of a handler: `Header` hands out the
header collection of the underlying writer, so the field is set there. -/
def timeoutResponseWriter.HeaderSet (trw : timeoutResponseWriter) (key value : String) :
    timeoutResponseWriter :=
  { trw with w := { trw.w with header := Header.Set trw.Header key value } }

/-- The first statement of the branch `case <-ctx.Done():`, under the mutex:
`trw.timedOut = true`. -/
def WithTimeout.markTimedOut (trw : timeoutResponseWriter) : timeoutResponseWriter :=
  { trw with timedOut := true }

/-- The second statement of the branch `case <-ctx.Done():`, outside the mutex:
`http.Error(w, "Request timed out", http.StatusGatewayTimeout)` on the underlying writer. -/
def WithTimeout.writeTimeout (trw : timeoutResponseWriter) : timeoutResponseWriter :=
  { trw with w := httpError trw.w (bytesOf "Request timed out") StatusGatewayTimeout }

/-- One run of the handler function of `WithTimeout`, as an interleaving of the calls of
the handler goroutine with the one branch of the `select` that is taken.  The channel
`done` is closed only after the handler returned, so in the branch `case <-done:` all
calls of the handler come before the `Flush`; in the branch `case <-ctx.Done():` calls of
the handler may come before the mark, between the mark and the timeout reply, and after
the reply. -/
inductive Schedule where
  | done (calls : List HandlerCall)
  | expired (before between after : List HandlerCall)
  deriving DecidableEq, Repr

/-- The buffered writer at the end of a run of the handler function of `WithTimeout`
on the writer `w`. -/
def WithTimeout.serve (w : Sink) : Schedule → timeoutResponseWriter
  | Schedule.done calls =>
    WithTimeout.caseDone ((newTimeoutResponseWriter w).run calls)
  | Schedule.expired before between after =>
    let trw := (newTimeoutResponseWriter w).run before
    let trw := WithTimeout.markTimedOut trw
    let trw := trw.run between
    let trw := WithTimeout.writeTimeout trw
    trw.run after

/-- The calls of the timeout reply on the underlying writer. -/
def timeoutReply : List SinkCall :=
  [SinkCall.WriteHeader 504, SinkCall.Write (bytesOf "Request timed out" ++ [10])]

/-! ## header_writer.go -/

/-- The struct `HdrField`. -/
structure HdrField where
  /-- The field name. -/
  Header : String
  /-- The field value. -/
  Value : String
  deriving DecidableEq, Repr

/-- The function `HeaderField` (the pointer it returns is never nil). -/
def HeaderField (k : String) (v : String) : HdrField :=
  { Header := k, Value := v }

/-- The loop `for _, h := range headers { w.Header().Set(h.Header, h.Value) }`. -/
def setResponseHeaders (w : Sink) : List HdrField → Sink
  | [] => w
  | h :: headers =>
    setResponseHeaders { w with header := Header.Set w.header h.Header h.Value } headers

/-- The function `WithResponseHeaders`: sets the fields, then serves the next handler
with the same writer and request. -/
def WithResponseHeaders (headers : List HdrField) : Layer :=
  fun next => fun w r => next (setResponseHeaders w headers) r

/-- The value of the last field of the list whose name has the given canonical form. -/
def lastValue : List HdrField → String → Option String
  | [], _ => none
  | h :: headers, name =>
    match lastValue headers name with
    | some v => some v
    | none => if CanonicalMIMEHeaderKey h.Header = name then some h.Value else none

/-- The value of the last field of the list whose name is exactly the given string. -/
def lastValueExact : List HdrField → String → Option String
  | [], _ => none
  | h :: headers, name =>
    match lastValueExact headers name with
    | some v => some v
    | none => if h.Header = name then some h.Value else none

/-! ## Theorems: apply.go -/

/-- Applying a concatenation of layer lists applies the first list, then the second. -/
theorem Apply_append (t : Handler) (xs ys : List Layer) :
    Apply t (xs ++ ys) = Apply (Apply t xs) ys := by
  induction xs generalizing t with
  | nil => rfl
  | cons l xs ih => simpa [Apply] using ih (l t)

/-- The nesting around one more layer puts that layer outermost. -/
theorem nested_snoc (t : Handler) (xs : List Layer) (l : Layer) :
    nested t (xs ++ [l]) = l (nested t xs) := by
  simp [nested]

/-- The loop of `Apply` builds the nesting with the last layer outermost. -/
theorem Apply_eq_nested (t : Handler) (layers : List Layer) :
    Apply t layers = nested t layers := by
  induction layers using List.reverseRecOn with
  | nil => rfl
  | append_singleton xs l ih => rw [Apply_append, nested_snoc, ih]; rfl

/-- The bytes written in a concatenation of call lists. -/
theorem written_append (xs ys : List SinkCall) :
    written (xs ++ ys) = written xs ++ written ys := by
  induction xs with
  | nil => rfl
  | cons c xs ih => cases c <;> simp [written, ih]

/-- The status codes in a concatenation of call lists. -/
theorem statuses_append (xs ys : List SinkCall) :
    statuses (xs ++ ys) = statuses xs ++ statuses ys := by
  induction xs with
  | nil => rfl
  | cons c xs ih => cases c <;> simp [statuses, ih]

/-- The calls received after a sequence of writes. -/
theorem writeAll_calls (w : Sink) (bs : List Bytes) :
    (writeAll w bs).calls = w.calls ++ bs.map SinkCall.Write := by
  induction bs generalizing w with
  | nil => simp [writeAll]
  | cons b bs ih => simp [writeAll, ih, Sink.Write]

/-- The bytes of a list of write calls. -/
theorem written_map_Write (bs : List Bytes) :
    written (bs.map SinkCall.Write) = bs.flatten := by
  induction bs with
  | nil => rfl
  | cons b bs ih => simp [written, ih]

/-- Labelled layers write their labels, last layer first, before the terminal handler
is served. -/
theorem Apply_testMiddleware (t : Handler) (labels : List Bytes) (w : Sink) (r : Request) :
    Apply t (labels.map testMiddleware) w r = t (writeAll w labels.reverse) r := by
  induction labels using List.reverseRecOn generalizing w with
  | nil => rfl
  | append_singleton xs l ih =>
    rw [List.map_append, Apply_append]
    simp [Apply, testMiddleware, ih, writeAll]

/-- C1: for every terminal handler t and every layer sequence [L1..Ln] (in particular
every non-empty one), Apply(t, L1, ..., Ln) is the nesting Ln(Ln-1(...L1(t)...)); when each
layer writes its label before delegating, the terminal handler is served after the writes
label(Ln), ..., label(L1), so with a terminal handler that writes its output the bytes
written are the labels from last to first followed by that output; for the labels L1, L2 and
the output "final" the body is "L2L1final". -/
theorem Apply_order (t : Handler) (layers : List Layer) :
    Apply t layers = nested t layers ∧
    (∀ l1 l2 : Layer, Apply t [l1, l2] = l2 (l1 t)) ∧
    (∀ (labels : List Bytes) (w : Sink) (r : Request),
      Apply t (labels.map testMiddleware) w r = t (writeAll w labels.reverse) r) ∧
    (∀ (labels : List Bytes) (output : Bytes) (w : Sink) (r : Request),
      written (Apply (finalHandler output) (labels.map testMiddleware) w r).calls =
        written w.calls ++ labels.reverse.flatten ++ output) ∧
    written (Apply (finalHandler (bytesOf "final"))
      [testMiddleware (bytesOf "L1"), testMiddleware (bytesOf "L2")] {} {}).calls =
        bytesOf "L2L1final" := by
  refine ⟨Apply_eq_nested t layers, fun _ _ => rfl, Apply_testMiddleware t, ?_, by decide⟩
  intro labels output w r
  rw [Apply_testMiddleware]
  simp [finalHandler, Sink.Write, writeAll_calls, written_append, written_map_Write, written]
  rw [← List.map_reverse, written_map_Write]

/-- C10: Apply with zero layers returns the terminal handler itself, so serving any
request through Apply(t) gives exactly what t gives; a terminal handler writing "final"
yields the body "final". -/
theorem Apply_no_layers (t : Handler) :
    Apply t [] = t ∧
    (∀ (w : Sink) (r : Request), Apply t [] w r = t w r) ∧
    written (Apply (finalHandler (bytesOf "final")) [] {} {}).calls = bytesOf "final" :=
  ⟨rfl, fun _ _ => rfl, by decide⟩

/-! ## Theorems: timeout.go -/

/-- The calls `Flush` makes on the underlying writer of a writer that is not timed out:
the recorded status, the buffered bytes, and a 500 status when the write failed. -/
theorem Flush_calls (trw : timeoutResponseWriter) (h : trw.timedOut = false) :
    trw.Flush.w.calls =
      trw.w.calls ++ [SinkCall.WriteHeader trw.status, SinkCall.Write trw.buf] ++
        (if trw.w.writeFails (trw.w.calls ++ [SinkCall.WriteHeader trw.status]) trw.buf
          then [SinkCall.WriteHeader StatusInternalServerError] else []) := by
  unfold timeoutResponseWriter.Flush
  simp only [h, Bool.false_eq_true, if_false, Sink.Write, Sink.WriteHeader]
  split <;> simp_all

/-- The method `Flush` changes nothing but the underlying writer. -/
theorem Flush_fields (trw : timeoutResponseWriter) :
    trw.Flush.buf = trw.buf ∧ trw.Flush.wroteHdr = trw.wroteHdr ∧
      trw.Flush.status = trw.status ∧ trw.Flush.timedOut = trw.timedOut ∧
      trw.Flush.w.header = trw.w.header ∧ trw.Flush.w.writeFails = trw.w.writeFails := by
  unfold timeoutResponseWriter.Flush
  by_cases ht : trw.timedOut = true
  · simp [ht]
  · by_cases he :
      trw.w.writeFails (trw.w.calls ++ [SinkCall.WriteHeader trw.status]) trw.buf = true <;>
    simp [ht, he, Sink.Write, Sink.WriteHeader]

/-- A call of the handler leaves the underlying writer and the timeout mark alone. -/
theorem call_frame (trw : timeoutResponseWriter) (c : HandlerCall) :
    (trw.call c).w = trw.w ∧ (trw.call c).timedOut = trw.timedOut := by
  cases c with
  | WriteHeader statusCode =>
    simp only [timeoutResponseWriter.call, timeoutResponseWriter.WriteHeader]
    split <;> simp
  | Write b =>
    simp only [timeoutResponseWriter.call, timeoutResponseWriter.Write]
    split
    · simp
    · split <;> simp

/-- Calls of the handler leave the underlying writer and the timeout mark alone. -/
theorem run_frame (trw : timeoutResponseWriter) (cs : List HandlerCall) :
    (trw.run cs).w = trw.w ∧ (trw.run cs).timedOut = trw.timedOut := by
  induction cs generalizing trw with
  | nil => exact ⟨rfl, rfl⟩
  | cons c cs ih =>
    have h1 := ih (trw.call c)
    have h2 := call_frame trw c
    simp only [timeoutResponseWriter.run]
    exact ⟨h1.1.trans h2.1, h1.2.trans h2.2⟩

/-- Once a status is recorded on a writer that is not timed out, further calls keep
the status and append the bytes written. -/
theorem run_committed (trw : timeoutResponseWriter) (cs : List HandlerCall)
    (ht : trw.timedOut = false) (hw : trw.wroteHdr = true) :
    (trw.run cs).status = trw.status ∧ (trw.run cs).wroteHdr = true ∧
      (trw.run cs).buf = trw.buf ++ writtenBytes cs := by
  induction cs generalizing trw with
  | nil => simp [timeoutResponseWriter.run, writtenBytes, hw]
  | cons c cs ih =>
    cases c with
    | WriteHeader statusCode =>
      have hc : trw.call (HandlerCall.WriteHeader statusCode) = trw := by
        simp [timeoutResponseWriter.call, timeoutResponseWriter.WriteHeader, hw]
      simp only [timeoutResponseWriter.run, hc, writtenBytes]
      exact ih trw ht hw
    | Write b =>
      have h := ih (trw.call (HandlerCall.Write b))
        (by simp [timeoutResponseWriter.call, timeoutResponseWriter.Write, ht, hw])
        (by simp [timeoutResponseWriter.call, timeoutResponseWriter.Write, ht, hw])
      simp only [timeoutResponseWriter.run, writtenBytes]
      refine ⟨h.1.trans ?_, h.2.1, h.2.2.trans ?_⟩ <;>
        simp [timeoutResponseWriter.call, timeoutResponseWriter.Write, ht, hw]

/-- The state of a fresh writer after a non-empty sequence of calls of the handler. -/
theorem run_fresh (w : Sink) (cs : List HandlerCall) (s : Int)
    (hs : committedStatus cs = some s) :
    ((newTimeoutResponseWriter w).run cs).status = s ∧
      ((newTimeoutResponseWriter w).run cs).wroteHdr = true ∧
      ((newTimeoutResponseWriter w).run cs).buf = writtenBytes cs := by
  cases cs with
  | nil => simp [committedStatus] at hs
  | cons c cs =>
    cases c with
    | WriteHeader statusCode =>
      simp only [committedStatus, Option.some.injEq] at hs
      have h := run_committed
        ((newTimeoutResponseWriter w).call (HandlerCall.WriteHeader statusCode)) cs
        (by simp [timeoutResponseWriter.call, timeoutResponseWriter.WriteHeader,
          newTimeoutResponseWriter])
        (by simp [timeoutResponseWriter.call, timeoutResponseWriter.WriteHeader,
          newTimeoutResponseWriter])
      simp only [timeoutResponseWriter.run, writtenBytes]
      refine ⟨h.1.trans ?_, h.2.1, h.2.2.trans ?_⟩ <;>
        simp [timeoutResponseWriter.call, timeoutResponseWriter.WriteHeader,
          newTimeoutResponseWriter, hs]
    | Write b =>
      simp only [committedStatus, Option.some.injEq] at hs
      have h := run_committed
        ((newTimeoutResponseWriter w).call (HandlerCall.Write b)) cs
        (by simp [timeoutResponseWriter.call, timeoutResponseWriter.Write,
          newTimeoutResponseWriter])
        (by simp [timeoutResponseWriter.call, timeoutResponseWriter.Write,
          newTimeoutResponseWriter])
      simp only [timeoutResponseWriter.run, writtenBytes]
      refine ⟨h.1.trans ?_, h.2.1, h.2.2.trans ?_⟩ <;>
        simp [timeoutResponseWriter.call, timeoutResponseWriter.Write,
          newTimeoutResponseWriter, StatusOK, ← hs]

/-- C2, as stated, fails: on a sink whose Write reports an error, after the handler wrote
"OK" the Flush sends two statuses to the sink, 200 and then 500, not exactly one. -/
theorem Flush_failing_sink_two_statuses :
    ((newTimeoutResponseWriter failingSink).run [HandlerCall.Write (bytesOf "OK")]).Flush.w.calls =
      [SinkCall.WriteHeader 200, SinkCall.Write (bytesOf "OK"), SinkCall.WriteHeader 500] ∧
    statuses ((newTimeoutResponseWriter failingSink).run
      [HandlerCall.Write (bytesOf "OK")]).Flush.w.calls = [200, 500] := by
  decide

/-- C2, amended: for every non-empty sequence of WriteHeader/Write calls made by the handler
on a fresh writer, a following Flush sends to the underlying sink the status the handler
committed (the code of a leading WriteHeader, 200 when a Write came first), then the
concatenation in call order of all byte slices written, in one Write; nothing else follows
when that Write reports no error, and one WriteHeader(500) follows when it reports an
error.  The header collection of the sink is not touched. -/
theorem Flush_timely_success (w : Sink) (cs : List HandlerCall) (hne : cs ≠ []) :
    ∃ s : Int, committedStatus cs = some s ∧
      ((newTimeoutResponseWriter w).run cs).Flush.w.calls =
        w.calls ++ [SinkCall.WriteHeader s, SinkCall.Write (writtenBytes cs)] ++
          (if w.writeFails (w.calls ++ [SinkCall.WriteHeader s]) (writtenBytes cs)
            then [SinkCall.WriteHeader 500] else []) ∧
      ((newTimeoutResponseWriter w).run cs).Flush.w.header = w.header := by
  obtain ⟨s, hs⟩ : ∃ s, committedStatus cs = some s := by
    cases cs with
    | nil => exact absurd rfl hne
    | cons c cs => cases c <;> exact ⟨_, rfl⟩
  have hf := run_frame (newTimeoutResponseWriter w) cs
  have hr := run_fresh w cs s hs
  have hw : ((newTimeoutResponseWriter w).run cs).w = w := hf.1
  have ht : ((newTimeoutResponseWriter w).run cs).timedOut = false := hf.2
  refine ⟨s, hs, ?_, ?_⟩
  · rw [Flush_calls _ ht, hw, hr.1, hr.2.2]; rfl
  · rw [(Flush_fields _).2.2.2.2.1, hw]

/-- The amended C2 at the calls of the success test, WriteHeader(200) then Write("OK"),
on a recorder that has received nothing yet. -/
theorem Flush_timely_success_witness :
    [HandlerCall.WriteHeader 200, HandlerCall.Write (bytesOf "OK")] ≠ [] ∧
    ∃ s : Int,
      committedStatus [HandlerCall.WriteHeader 200, HandlerCall.Write (bytesOf "OK")] = some s ∧
      ((newTimeoutResponseWriter {}).run
        [HandlerCall.WriteHeader 200, HandlerCall.Write (bytesOf "OK")]).Flush.w.calls =
        ({} : Sink).calls ++ [SinkCall.WriteHeader s, SinkCall.Write
            (writtenBytes [HandlerCall.WriteHeader 200, HandlerCall.Write (bytesOf "OK")])] ++
          (if ({} : Sink).writeFails (({} : Sink).calls ++ [SinkCall.WriteHeader s])
              (writtenBytes [HandlerCall.WriteHeader 200, HandlerCall.Write (bytesOf "OK")])
            then [SinkCall.WriteHeader 500] else []) ∧
      ((newTimeoutResponseWriter {}).run
        [HandlerCall.WriteHeader 200, HandlerCall.Write (bytesOf "OK")]).Flush.w.header =
        ({} : Sink).header :=
  ⟨by decide, Flush_timely_success {} _ (by decide)⟩

/-- C3: when the deadline branch of WithTimeout is taken, then for every state of the
buffered writer the underlying sink receives exactly the status 504 and one Write of
"Request timed out" followed by a newline, so the body contains "Request timed out"; the
sink after the branch does not depend on the buffered status or bytes, none of which is
written to it, and the writer is marked timed out with its buffer left as it was. -/
theorem caseCtxDone_reply (trw : timeoutResponseWriter) :
    (WithTimeout.caseCtxDone trw).w.calls =
      trw.w.calls ++ [SinkCall.WriteHeader 504,
        SinkCall.Write (bytesOf "Request timed out" ++ [10])] ∧
    statuses [SinkCall.WriteHeader 504,
      SinkCall.Write (bytesOf "Request timed out" ++ [10])] = [504] ∧
    bytesOf "Request timed out" <:+: written [SinkCall.WriteHeader 504,
      SinkCall.Write (bytesOf "Request timed out" ++ [10])] ∧
    (∀ (buf : Bytes) (wroteHdr : Bool) (status : Int) (timedOut : Bool),
      (WithTimeout.caseCtxDone
        { w := trw.w, buf := buf, wroteHdr := wroteHdr, status := status, timedOut := timedOut }).w =
          (WithTimeout.caseCtxDone trw).w) ∧
    (WithTimeout.caseCtxDone trw).timedOut = true ∧
    (WithTimeout.caseCtxDone trw).buf = trw.buf ∧
    (WithTimeout.caseCtxDone trw).status = trw.status ∧
    (WithTimeout.caseCtxDone trw).wroteHdr = trw.wroteHdr := by
  refine ⟨?_, by decide, ⟨[], [10], by decide⟩, fun _ _ _ _ => rfl, rfl, rfl, rfl, rfl⟩
  simp [WithTimeout.caseCtxDone, httpError, Sink.Write, Sink.WriteHeader, StatusGatewayTimeout]

/-- C4: on a writer whose timedOut flag is set, for every byte slice b, Write(b) returns
(0, nil) and leaves the whole writer (buffer, committed status, underlying sink) unchanged,
and Flush leaves the whole writer, so also the underlying sink, unchanged; hence any
sequence of later Write calls followed by a Flush leaves the writer and the response
already received by the sink unchanged.  The timeout branch of WithTimeout sets the flag,
so this holds after it has answered. -/
theorem timedOut_silence (trw : timeoutResponseWriter) (h : trw.timedOut = true) :
    (∀ b : Bytes, trw.Write b = (trw, 0, false)) ∧
    trw.Flush = trw ∧
    (∀ bs : List Bytes, (trw.run (bs.map HandlerCall.Write)).Flush = trw) ∧
    (∀ bs : List Bytes, (trw.run (bs.map HandlerCall.Write)).Flush.w.calls = trw.w.calls) := by
  have hW : ∀ b : Bytes, trw.Write b = (trw, 0, false) := by
    intro b; simp [timeoutResponseWriter.Write, h]
  have hF : trw.Flush = trw := by simp [timeoutResponseWriter.Flush, h]
  have hR : ∀ bs : List Bytes, trw.run (bs.map HandlerCall.Write) = trw := by
    intro bs
    induction bs with
    | nil => rfl
    | cons b bs ih =>
      simp only [List.map_cons, timeoutResponseWriter.run, timeoutResponseWriter.call, hW b]
      exact ih
  refine ⟨hW, hF, ?_, ?_⟩
  · intro bs; rw [hR bs, hF]
  · intro bs; rw [hR bs, hF]

/-- C4 after the timeout branch has answered a handler that had written "partial": the
late writes and the late Flush change nothing. -/
theorem timedOut_silence_witness :
    (WithTimeout.caseCtxDone ((newTimeoutResponseWriter {}).run
      [HandlerCall.Write (bytesOf "partial")])).timedOut = true ∧
    ((∀ b : Bytes, (WithTimeout.caseCtxDone ((newTimeoutResponseWriter {}).run
        [HandlerCall.Write (bytesOf "partial")])).Write b =
      (WithTimeout.caseCtxDone ((newTimeoutResponseWriter {}).run
        [HandlerCall.Write (bytesOf "partial")]), 0, false)) ∧
    (WithTimeout.caseCtxDone ((newTimeoutResponseWriter {}).run
        [HandlerCall.Write (bytesOf "partial")])).Flush =
      WithTimeout.caseCtxDone ((newTimeoutResponseWriter {}).run
        [HandlerCall.Write (bytesOf "partial")]) ∧
    (∀ bs : List Bytes, ((WithTimeout.caseCtxDone ((newTimeoutResponseWriter {}).run
        [HandlerCall.Write (bytesOf "partial")])).run (bs.map HandlerCall.Write)).Flush =
      WithTimeout.caseCtxDone ((newTimeoutResponseWriter {}).run
        [HandlerCall.Write (bytesOf "partial")])) ∧
    (∀ bs : List Bytes, ((WithTimeout.caseCtxDone ((newTimeoutResponseWriter {}).run
        [HandlerCall.Write (bytesOf "partial")])).run
          (bs.map HandlerCall.Write)).Flush.w.calls =
      (WithTimeout.caseCtxDone ((newTimeoutResponseWriter {}).run
        [HandlerCall.Write (bytesOf "partial")])).w.calls)) :=
  ⟨rfl, timedOut_silence _ rfl⟩

/-- C7, the code at the failing input: a handler writes "OK" and calls Flush on the
writer it is served with, then returns, and the branch `case <-done:` calls Flush again.
The first Flush does not set the timedOut mark, so the second Flush is not a no-op: the
sink receives the status and the body a second time, the body read from the sink is
"OKOK", and a Write made after a Flush is accumulated in the buffer and reports its
length, not dropped. -/
theorem Flush_twice_writes_twice :
    (WithTimeout.caseDone
      ((newTimeoutResponseWriter {}).run [HandlerCall.Write (bytesOf "OK")]).Flush).w.calls =
      [SinkCall.WriteHeader 200, SinkCall.Write (bytesOf "OK"),
        SinkCall.WriteHeader 200, SinkCall.Write (bytesOf "OK")] ∧
    written (WithTimeout.caseDone
      ((newTimeoutResponseWriter {}).run [HandlerCall.Write (bytesOf "OK")]).Flush).w.calls =
      bytesOf "OKOK" ∧
    statuses (WithTimeout.caseDone
      ((newTimeoutResponseWriter {}).run [HandlerCall.Write (bytesOf "OK")]).Flush).w.calls =
      [200, 200] ∧
    ((newTimeoutResponseWriter {}).run [HandlerCall.Write (bytesOf "OK")]).Flush.w.calls =
      [SinkCall.WriteHeader 200, SinkCall.Write (bytesOf "OK")] ∧
    ((newTimeoutResponseWriter {}).run [HandlerCall.Write (bytesOf "OK")]).Flush.Flush.w.calls =
      [SinkCall.WriteHeader 200, SinkCall.Write (bytesOf "OK"),
        SinkCall.WriteHeader 200, SinkCall.Write (bytesOf "OK")] ∧
    ((newTimeoutResponseWriter {}).run [HandlerCall.Write (bytesOf "OK")]).Flush.timedOut = false ∧
    (((newTimeoutResponseWriter {}).run [HandlerCall.Write (bytesOf "OK")]).Flush.Write
      (bytesOf "late")).1.buf = bytesOf "OKlate" ∧
    (((newTimeoutResponseWriter {}).run [HandlerCall.Write (bytesOf "OK")]).Flush.Write
      (bytesOf "late")).2 = (4, false) := by
  decide

/-- What the code of Flush does on every writer that is not timed out: the timedOut mark
stays unset and the buffer and the recorded status stay as they were, so a second Flush
sends the recorded status and the buffered bytes to the sink once more (after the calls of
the first Flush), and a later Write(b) is appended to the buffer and returns (len(b), nil).
The mark that Flush tests is set only by the timeout branch. -/
theorem Flush_not_finalizing (trw : timeoutResponseWriter) (h : trw.timedOut = false) :
    trw.Flush.timedOut = false ∧ trw.Flush.buf = trw.buf ∧ trw.Flush.status = trw.status ∧
    trw.Flush.wroteHdr = trw.wroteHdr ∧
    (∃ more : List SinkCall, trw.Flush.Flush.w.calls =
      trw.Flush.w.calls ++ [SinkCall.WriteHeader trw.status, SinkCall.Write trw.buf] ++ more) ∧
    (∀ b : Bytes, (trw.Flush.Write b).1.buf = trw.buf ++ b ∧
      (trw.Flush.Write b).2 = (b.length, false)) := by
  have hf := Flush_fields trw
  have ht : trw.Flush.timedOut = false := hf.2.2.2.1.trans h
  refine ⟨ht, hf.1, hf.2.2.1, hf.2.1, ?_, ?_⟩
  · rw [Flush_calls _ ht, hf.1, hf.2.2.1]
    exact ⟨_, rfl⟩
  · intro b
    simp only [timeoutResponseWriter.Write, ht, Bool.false_eq_true, if_false]
    by_cases hw : trw.Flush.wroteHdr = true <;> simp [hw, hf.1]

/-- The behaviour of Flush above at the writer of a handler that wrote "OK". -/
theorem Flush_not_finalizing_witness :
    ((newTimeoutResponseWriter {}).run [HandlerCall.Write (bytesOf "OK")]).timedOut = false ∧
    (((newTimeoutResponseWriter {}).run [HandlerCall.Write (bytesOf "OK")]).Flush.Write
      (bytesOf "late")).1.buf =
        ((newTimeoutResponseWriter {}).run [HandlerCall.Write (bytesOf "OK")]).buf ++
          bytesOf "late" :=
  ⟨rfl, ((Flush_not_finalizing _ rfl).2.2.2.2.2 (bytesOf "late")).1⟩

/-- C8, the code at the failing input: on a fresh writer (no WriteHeader, no Write) Flush
sends the unset status value 0 to the sink, not 200, followed by the empty body. -/
theorem Flush_fresh_sends_status_zero (w : Sink) :
    (newTimeoutResponseWriter w).Flush.w.calls =
      w.calls ++ [SinkCall.WriteHeader 0, SinkCall.Write []] ++
        (if w.writeFails (w.calls ++ [SinkCall.WriteHeader 0]) []
          then [SinkCall.WriteHeader 500] else []) ∧
    (newTimeoutResponseWriter {}).Flush.w.calls =
      [SinkCall.WriteHeader 0, SinkCall.Write []] ∧
    statuses (newTimeoutResponseWriter {}).Flush.w.calls ≠ [200] := by
  refine ⟨?_, by decide, by decide⟩
  exact Flush_calls (newTimeoutResponseWriter w) rfl

/-- C9, as stated, fails: the 500 status is issued after the recorded status and the
buffered bytes have already been sent to the sink (here after WriteHeader(200) and
Write("OK") on a sink whose Write fails); and a handler that committed the status 500
itself has WriteHeader(500) issued on a sink whose Write reports no error. -/
theorem Flush_escalation_after_commit :
    ((newTimeoutResponseWriter failingSink).run
      [HandlerCall.Write (bytesOf "OK")]).Flush.w.calls =
      [SinkCall.WriteHeader 200, SinkCall.Write (bytesOf "OK"), SinkCall.WriteHeader 500] ∧
    ((newTimeoutResponseWriter {}).run [HandlerCall.WriteHeader 500]).Flush.w.calls =
      [SinkCall.WriteHeader 500, SinkCall.Write []] := by
  decide

/-- C9, amended: for every writer that is not timed out Flush returns the writer with only
its underlying sink changed (no error reaches the caller): the sink receives
WriteHeader(status) and Write(buf), and after these two calls one further
WriteHeader(500) if and only if that Write reported an error; the escalation is always
issued after the recorded status and the buffered bytes were sent to the sink. -/
theorem Flush_escalation (trw : timeoutResponseWriter) (h : trw.timedOut = false) :
    ∃ more : List SinkCall,
      trw.Flush.w.calls =
        trw.w.calls ++ [SinkCall.WriteHeader trw.status, SinkCall.Write trw.buf] ++ more ∧
      (more = [SinkCall.WriteHeader 500] ↔
        trw.w.writeFails (trw.w.calls ++ [SinkCall.WriteHeader trw.status]) trw.buf = true) ∧
      (more = [] ↔
        trw.w.writeFails (trw.w.calls ++ [SinkCall.WriteHeader trw.status]) trw.buf = false) ∧
      trw.Flush.buf = trw.buf ∧ trw.Flush.status = trw.status ∧
      trw.Flush.wroteHdr = trw.wroteHdr ∧ trw.Flush.timedOut = false := by
  have hf := Flush_fields trw
  refine ⟨_, Flush_calls trw h, ?_, ?_, hf.1, hf.2.2.1, hf.2.1, hf.2.2.2.1.trans h⟩
  · by_cases he :
      trw.w.writeFails (trw.w.calls ++ [SinkCall.WriteHeader trw.status]) trw.buf = true <;>
    simp [he, StatusInternalServerError]
  · by_cases he :
      trw.w.writeFails (trw.w.calls ++ [SinkCall.WriteHeader trw.status]) trw.buf = true <;>
    simp [he, StatusInternalServerError]

/-- The amended C9 at a handler that wrote "OK", on a sink whose Write fails. -/
theorem Flush_escalation_witness :
    ((newTimeoutResponseWriter failingSink).run
      [HandlerCall.Write (bytesOf "OK")]).timedOut = false ∧
    ∃ more : List SinkCall,
      ((newTimeoutResponseWriter failingSink).run
        [HandlerCall.Write (bytesOf "OK")]).Flush.w.calls =
        ((newTimeoutResponseWriter failingSink).run [HandlerCall.Write (bytesOf "OK")]).w.calls ++
          [SinkCall.WriteHeader
            ((newTimeoutResponseWriter failingSink).run [HandlerCall.Write (bytesOf "OK")]).status,
           SinkCall.Write
            ((newTimeoutResponseWriter failingSink).run [HandlerCall.Write (bytesOf "OK")]).buf] ++
          more :=
  ⟨rfl, (Flush_escalation _ rfl).imp fun _ hm => hm.1⟩

/-! ## Theorems: store.go -/

/-- A context with no entry under the key gives nil for it. -/
theorem Context.Value_missing (ctx : Context) (key : ContextKey)
    (h : ∀ p ∈ ctx, p.1 ≠ key) : ctx.Value key = none := by
  induction ctx with
  | nil => rfl
  | cons p ctx ih =>
    obtain ⟨k, v⟩ := p
    have hk : k ≠ key := h (k, v) (List.mem_cons_self _ _)
    simp only [Context.Value, hk, if_false]
    exact ih (fun q hq => h q (List.mem_cons_of_mem _ hq))

/-- The value attached last under a key is the one looked up. -/
theorem Context.Value_WithValue (ctx : Context) (key : ContextKey) (val : Any) :
    (Context.WithValue ctx key val).Value key = val := by
  simp [Context.WithValue, Context.Value]

/-- A variable of a concrete type never holds the nil interface. -/
theorem HasType_concrete_ne_nil (c : ConcreteType) (x : Any)
    (h : HasType (GoType.concrete c) x) : x ≠ none := by
  cases x with
  | none => simp [HasType] at h
  | some v => simp

/-- A non-nil value held in a variable of type `T` can be asserted to `T`. -/
theorem holds_of_HasType (T : GoType) (v : Value) (h : HasType T (some v)) :
    T.holds v.dynType = true := by
  cases T with
  | concrete c => simpa [HasType, GoType.holds] using h
  | iface implementedBy => simpa [HasType, GoType.holds] using h

/-- C5, as stated, fails: for the interface type any and the nil value, which is a value
of that type, the handler wrapped by WithStore(k, nil) is served with the context in which
nil is attached under k, and GetStoreFromContext on that context reports (nil, false),
not (nil, true). -/
theorem WithStore_nil_interface_not_found :
    HasType GoType.any none ∧
    (∀ (next : Handler) (w : Sink) (r : Request),
      WithStore GoType.any "testKey" none next w r =
        next w (r.WithContext (Context.WithValue r.Context "testKey" none))) ∧
    (∀ r : Request, GetStoreFromContext GoType.any
      (r.WithContext (Context.WithValue r.Context "testKey" none)).Context "testKey" =
        (none, false)) := by
  refine ⟨trivial, fun _ _ _ => rfl, fun r => ?_⟩
  simp [GetStoreFromContext, Request.WithContext, Request.Context, Context.Value_WithValue,
    typeAssert, GoType.zero, GoType.any]

/-- C5, amended: for every type T, key k, incoming request and value v of type T other
than a nil interface value (every value of a concrete type T, every non-nil value of an
interface type T), the handler wrapped by WithStore(k, v) is called with the same writer
and a request whose context satisfies GetStoreFromContext[T](ctx, k) = (v, true). -/
theorem WithStore_round_trip (T : GoType) (key : ContextKey) (x : Any)
    (hT : HasType T x) (hx : (∃ c, T = GoType.concrete c) ∨ x ≠ none)
    (next : Handler) (w : Sink) (r : Request) :
    WithStore T key x next w r =
      next w (r.WithContext (Context.WithValue r.Context key x)) ∧
    GetStoreFromContext T
      (r.WithContext (Context.WithValue r.Context key x)).Context key = (x, true) := by
  refine ⟨rfl, ?_⟩
  have hne : x ≠ none := by
    rcases hx with ⟨c, hc⟩ | hx
    · subst hc; exact HasType_concrete_ne_nil c x hT
    · exact hx
  cases x with
  | none => exact absurd rfl hne
  | some v =>
    simp [GetStoreFromContext, Request.WithContext, Request.Context, Context.Value_WithValue,
      typeAssert, holds_of_HasType T v hT]

/-- The amended C5 at the store test: key "testKey", value 2359 retrieved as int. -/
theorem WithStore_round_trip_witness :
    HasType (GoType.concrete ConcreteType.int) (some (Value.int 2359)) ∧
    ((∃ c, GoType.concrete ConcreteType.int = GoType.concrete c) ∨
      some (Value.int 2359) ≠ none) ∧
    GetStoreFromContext (GoType.concrete ConcreteType.int)
      (({} : Request).WithContext (Context.WithValue ({} : Request).Context "testKey"
        (some (Value.int 2359)))).Context "testKey" = (some (Value.int 2359), true) :=
  ⟨rfl, Or.inl ⟨_, rfl⟩,
    (WithStore_round_trip (GoType.concrete ConcreteType.int) "testKey" (some (Value.int 2359))
      rfl (Or.inl ⟨_, rfl⟩) (fun w _ => w) {} {}).2⟩

/-- C6, as stated, fails: with T the interface type any, a context holding the string
"hello" under the key holds a value whose dynamic type, string, is not T, yet
GetStoreFromContext returns ("hello", true), not (zero value, false). -/
theorem GetStoreFromContext_interface_found :
    (Value.string "hello").dynType = ConcreteType.string ∧
    GoType.any ≠ GoType.concrete ConcreteType.string ∧
    GetStoreFromContext GoType.any
      (Context.WithValue Context.Background "mismatchKey" (some (Value.string "hello")))
      "mismatchKey" = (some (Value.string "hello"), true) := by
  refine ⟨rfl, ?_, ?_⟩
  · simp [GoType.any]
  · simp [GetStoreFromContext, Context.Value_WithValue, typeAssert, GoType.holds, GoType.any]

/-- C6, amended: GetStoreFromContext[T](ctx, k) is total and returns (zero value of T,
false) whenever ctx has no entry under k, holds nil under k, or holds under k a value whose
dynamic type is not T (T a concrete type) or does not implement T (T an interface type); a
missing key read as string gives ("", false) and a stored string "hello" read as int gives
(0, false).  It returns true exactly when a non-nil value is stored under k whose dynamic
type is T or implements T, and then returns that value. -/
theorem GetStoreFromContext_absent (T : GoType) (ctx : Context) (key : ContextKey) :
    ((∀ p ∈ ctx, p.1 ≠ key) → GetStoreFromContext T ctx key = (T.zero, false)) ∧
    (ctx.Value key = none → GetStoreFromContext T ctx key = (T.zero, false)) ∧
    (∀ v : Value, ctx.Value key = some v → T.holds v.dynType = false →
      GetStoreFromContext T ctx key = (T.zero, false)) ∧
    (∀ (c : ConcreteType) (v : Value), ctx.Value key = some v → v.dynType ≠ c →
      GetStoreFromContext (GoType.concrete c) ctx key = (some c.zero, false)) ∧
    ((GetStoreFromContext T ctx key).2 = true ↔
      ∃ v : Value, ctx.Value key = some v ∧ T.holds v.dynType = true ∧
        (GetStoreFromContext T ctx key).1 = some v) ∧
    GetStoreFromContext (GoType.concrete ConcreteType.string) Context.Background "missingKey" =
      (some (Value.string ""), false) ∧
    GetStoreFromContext (GoType.concrete ConcreteType.int)
      (Context.WithValue Context.Background "mismatchKey" (some (Value.string "hello")))
      "mismatchKey" = (some (Value.int 0), false) := by
  refine ⟨fun h => ?_, fun h => ?_, fun v hv hh => ?_, fun c v hv hc => ?_, ?_, by decide,
    by decide⟩
  · simp [GetStoreFromContext, Context.Value_missing ctx key h, typeAssert]
  · simp [GetStoreFromContext, h, typeAssert]
  · simp [GetStoreFromContext, hv, typeAssert, hh]
  · simp [GetStoreFromContext, hv, typeAssert, GoType.holds, hc, GoType.zero]
  · unfold GetStoreFromContext typeAssert
    cases hv : ctx.Value key with
    | none => simp
    | some v => by_cases hh : T.holds v.dynType = true <;> simp [hh]

/-! ## Theorems: composition of layers -/

/-- C12: composition through Apply is associative: for every handler t and layer lists xs,
ys, Apply(Apply(t, xs...), ys...) = Apply(t, (xs ++ ys)...); and it is order-sensitive: with
the layers writing "L1" and "L2" and the terminal handler writing "final", Apply(t, L1, L2)
writes "L2L1final" and Apply(t, L2, L1) writes "L1L2final", two different responses. -/
theorem Apply_assoc_not_comm :
    (∀ (t : Handler) (xs ys : List Layer), Apply (Apply t xs) ys = Apply t (xs ++ ys)) ∧
    (∃ (L1 L2 : Layer) (t : Handler),
      written (Apply t [L1, L2] {} {}).calls ≠ written (Apply t [L2, L1] {} {}).calls) ∧
    written (Apply (finalHandler (bytesOf "final"))
      [testMiddleware (bytesOf "L1"), testMiddleware (bytesOf "L2")] {} {}).calls =
        bytesOf "L2L1final" ∧
    written (Apply (finalHandler (bytesOf "final"))
      [testMiddleware (bytesOf "L2"), testMiddleware (bytesOf "L1")] {} {}).calls =
        bytesOf "L1L2final" := by
  refine ⟨fun t xs ys => (Apply_append t xs ys).symm, ?_, by decide, by decide⟩
  exact ⟨testMiddleware (bytesOf "L1"), testMiddleware (bytesOf "L2"),
    finalHandler (bytesOf "final"), by decide⟩

/-! ## Theorems: the buffered writer, continued -/

/-- C14, as stated, fails: on a writer marked timed out before the handler committed a
status, WriteHeader(404) records the status: the committed-status flag and the status
change. -/
theorem WriteHeader_after_timeout_records :
    (WithTimeout.caseCtxDone (newTimeoutResponseWriter {})).timedOut = true ∧
    (WithTimeout.caseCtxDone (newTimeoutResponseWriter {})).wroteHdr = false ∧
    (WithTimeout.caseCtxDone (newTimeoutResponseWriter {})).status = 0 ∧
    ((WithTimeout.caseCtxDone (newTimeoutResponseWriter {})).WriteHeader 404).wroteHdr = true ∧
    ((WithTimeout.caseCtxDone (newTimeoutResponseWriter {})).WriteHeader 404).status = 404 := by
  decide

/-- C14, amended: WriteHeader does not look at the timedOut flag.  On a writer whose
timedOut flag is set, WriteHeader(c) leaves the accumulated bytes, the timedOut flag and
the underlying sink unchanged for every c; it leaves the whole writer unchanged when a
status had been committed, and records c as the committed status when none had been.
The recorded status never reaches the sink, since Flush on such a writer does nothing. -/
theorem WriteHeader_timedOut (trw : timeoutResponseWriter) (c : Int)
    (h : trw.timedOut = true) :
    (trw.WriteHeader c).buf = trw.buf ∧ (trw.WriteHeader c).timedOut = true ∧
    (trw.WriteHeader c).w = trw.w ∧
    (trw.wroteHdr = true → trw.WriteHeader c = trw) ∧
    (trw.wroteHdr = false →
      (trw.WriteHeader c).wroteHdr = true ∧ (trw.WriteHeader c).status = c) ∧
    (trw.WriteHeader c).Flush.w = trw.w := by
  by_cases hw : trw.wroteHdr = true
  · simp [timeoutResponseWriter.WriteHeader, timeoutResponseWriter.Flush, hw, h]
  · simp [timeoutResponseWriter.WriteHeader, timeoutResponseWriter.Flush, hw, h]

/-- The amended C14 on the writer of a handler that had made no call when the timeout
branch ran. -/
theorem WriteHeader_timedOut_witness :
    (WithTimeout.caseCtxDone (newTimeoutResponseWriter {})).timedOut = true ∧
    ((WithTimeout.caseCtxDone (newTimeoutResponseWriter {})).WriteHeader 404).Flush.w =
      (WithTimeout.caseCtxDone (newTimeoutResponseWriter {})).w :=
  ⟨rfl, (WriteHeader_timedOut _ 404 rfl).2.2.2.2.2⟩

/-- C15: for every sequence of WriteHeader and Write calls on a buffered writer, in every
state of it, the underlying sink is left as it was: no status and no bytes are written by
those calls.  Flush writes nothing on a writer marked timed out, and otherwise sends the
recorded status and all buffered bytes in one Write (followed by WriteHeader(500) when that
Write reports an error); the timeout branch writes the timeout reply and none of the
buffered bytes.  So the buffered bytes reach the sink in full or not at all. -/
theorem buffered_until_flush (trw : timeoutResponseWriter) (cs : List HandlerCall) :
    (trw.run cs).w = trw.w ∧
    (trw.timedOut = true → (trw.run cs).Flush.w = trw.w) ∧
    (trw.timedOut = false →
      (trw.run cs).Flush.w.calls = trw.w.calls ++
        [SinkCall.WriteHeader (trw.run cs).status, SinkCall.Write (trw.run cs).buf] ++
        (if trw.w.writeFails (trw.w.calls ++ [SinkCall.WriteHeader (trw.run cs).status])
            (trw.run cs).buf
          then [SinkCall.WriteHeader 500] else []) ∧
      written (trw.run cs).Flush.w.calls = written trw.w.calls ++ (trw.run cs).buf) ∧
    (WithTimeout.caseCtxDone (trw.run cs)).w.calls = trw.w.calls ++ timeoutReply := by
  have hf := run_frame trw cs
  refine ⟨hf.1, fun ht => ?_, fun ht => ?_, ?_⟩
  · have h1 : (trw.run cs).timedOut = true := hf.2.trans ht
    simp [timeoutResponseWriter.Flush, h1, hf.1]
  · have h1 : (trw.run cs).timedOut = false := hf.2.trans ht
    have hc := Flush_calls _ h1
    rw [hf.1] at hc
    refine ⟨hc, ?_⟩
    rw [hc, written_append, written_append]
    by_cases he : trw.w.writeFails
        (trw.w.calls ++ [SinkCall.WriteHeader (trw.run cs).status]) (trw.run cs).buf = true <;>
      simp [he, written, StatusInternalServerError]
  · simp [WithTimeout.caseCtxDone, httpError, Sink.Write, Sink.WriteHeader,
      StatusGatewayTimeout, timeoutReply, hf.1]

/-- C16: on a writer that is not timed out and has no status committed, WriteHeader(c)
commits c and a Write commits 200; once a status is committed, every later WriteHeader(c2)
leaves the writer, so the committed status, unchanged, also after any further calls of the
handler. -/
theorem first_status_wins (trw : timeoutResponseWriter) (ht : trw.timedOut = false)
    (hw : trw.wroteHdr = false) (c c2 : Int) (b : Bytes) (cs : List HandlerCall) :
    (trw.WriteHeader c).wroteHdr = true ∧ (trw.WriteHeader c).status = c ∧
    (trw.Write b).1.wroteHdr = true ∧ (trw.Write b).1.status = 200 ∧
    (trw.WriteHeader c).WriteHeader c2 = trw.WriteHeader c ∧
    (trw.Write b).1.WriteHeader c2 = (trw.Write b).1 ∧
    (((trw.WriteHeader c).run cs).WriteHeader c2).status = c ∧
    (((trw.Write b).1.run cs).WriteHeader c2).status = 200 ∧
    (∀ u : timeoutResponseWriter, u.wroteHdr = true → u.WriteHeader c2 = u) := by
  have hnoop : ∀ u : timeoutResponseWriter, u.wroteHdr = true → u.WriteHeader c2 = u := by
    intro u hu; simp [timeoutResponseWriter.WriteHeader, hu]
  have h1 : (trw.WriteHeader c).wroteHdr = true := by
    simp [timeoutResponseWriter.WriteHeader, hw]
  have h2 : (trw.WriteHeader c).status = c := by
    simp [timeoutResponseWriter.WriteHeader, hw]
  have h3 : (trw.Write b).1.wroteHdr = true := by
    simp [timeoutResponseWriter.Write, hw, ht]
  have h4 : (trw.Write b).1.status = 200 := by
    simp [timeoutResponseWriter.Write, hw, ht, StatusOK]
  have h5 : (trw.WriteHeader c).timedOut = false := by
    simp [timeoutResponseWriter.WriteHeader, hw, ht]
  have h6 : (trw.Write b).1.timedOut = false := by
    simp [timeoutResponseWriter.Write, hw, ht]
  have r1 := run_committed (trw.WriteHeader c) cs h5 h1
  have r2 := run_committed (trw.Write b).1 cs h6 h3
  refine ⟨h1, h2, h3, h4, hnoop _ h1, hnoop _ h3, ?_, ?_, hnoop⟩
  · rw [hnoop _ r1.2.1, r1.1, h2]
  · rw [hnoop _ r2.2.1, r2.1, h4]

/-- C16 on a fresh writer: WriteHeader(201), then a Write, then WriteHeader(500) keeps 201. -/
theorem first_status_wins_witness :
    (newTimeoutResponseWriter {}).timedOut = false ∧
    (newTimeoutResponseWriter {}).wroteHdr = false ∧
    ((((newTimeoutResponseWriter {}).WriteHeader 201).run
      [HandlerCall.Write (bytesOf "OK")]).WriteHeader 500).status = 201 :=
  ⟨rfl, rfl,
    (first_status_wins (newTimeoutResponseWriter {}) rfl rfl 201 500 []
      [HandlerCall.Write (bytesOf "OK")]).2.2.2.2.2.2.1⟩

/-- C17: on a writer that is not timed out, for every byte slice b, Write(b) returns
(len(b), nil), the accumulated bytes afterwards are the previous ones followed by b, the
status becomes 200 when none had been committed and is kept when one had been; a status
is committed afterwards, and the timedOut flag and the underlying sink are unchanged. -/
theorem Write_appends (trw : timeoutResponseWriter) (b : Bytes) (ht : trw.timedOut = false) :
    (trw.Write b).2 = (b.length, false) ∧
    (trw.Write b).1.buf = trw.buf ++ b ∧
    (trw.wroteHdr = false → (trw.Write b).1.status = 200) ∧
    (trw.wroteHdr = true → (trw.Write b).1.status = trw.status) ∧
    (trw.Write b).1.wroteHdr = true ∧
    (trw.Write b).1.timedOut = false ∧
    (trw.Write b).1.w = trw.w := by
  by_cases hw : trw.wroteHdr = true
  · simp [timeoutResponseWriter.Write, ht, hw]
  · simp [timeoutResponseWriter.Write, ht, hw, StatusOK]

/-- C17 on a fresh writer and on a writer with the status 404 committed. -/
theorem Write_appends_witness :
    ((newTimeoutResponseWriter {}).WriteHeader 404).timedOut = false ∧
    (((newTimeoutResponseWriter {}).WriteHeader 404).Write (bytesOf "OK")).2 = (2, false) ∧
    (((newTimeoutResponseWriter {}).WriteHeader 404).Write (bytesOf "OK")).1.buf =
      bytesOf "OK" ∧
    (((newTimeoutResponseWriter {}).WriteHeader 404).Write (bytesOf "OK")).1.status = 404 ∧
    ((newTimeoutResponseWriter {}).Write (bytesOf "OK")).1.status = 200 :=
  ⟨rfl,
    (Write_appends ((newTimeoutResponseWriter {}).WriteHeader 404) (bytesOf "OK") rfl).1,
    (Write_appends ((newTimeoutResponseWriter {}).WriteHeader 404) (bytesOf "OK") rfl).2.1,
    (Write_appends ((newTimeoutResponseWriter {}).WriteHeader 404) (bytesOf "OK") rfl).2.2.2.1
      rfl,
    (Write_appends (newTimeoutResponseWriter {}) (bytesOf "OK") rfl).2.2.1 rfl⟩

/-! ## Theorems: store.go, continued -/

/-- A value attached under one key does not change the lookup of another key. -/
theorem Context.Value_WithValue_ne (ctx : Context) (key key2 : ContextKey) (val : Any)
    (h : key2 ≠ key) : (Context.WithValue ctx key val).Value key2 = ctx.Value key2 := by
  have h2 : key ≠ key2 := fun e => h e.symm
  simp [Context.WithValue, Context.Value, h2]

/-- C19: for every key k, value v and every key k2 different from k, the handler wrapped by
WithStore(k, v) is served with the same writer, untouched, and with a request that differs
from the incoming one only in its context; that context gives for k2 the same lookup
result, for every type, as the incoming request context; and with an inner WithStore on
the same key k the handler sees the inner value, whatever the outer value was. -/
theorem WithStore_frame (T : GoType) (k k2 : ContextKey) (v : Any) (h : k2 ≠ k)
    (next : Handler) (w : Sink) (r : Request) :
    WithStore T k v next w r =
      next w (r.WithContext (Context.WithValue r.Context k v)) ∧
    (r.WithContext (Context.WithValue r.Context k v)).Method = r.Method ∧
    (r.WithContext (Context.WithValue r.Context k v)).URL = r.URL ∧
    (r.WithContext (Context.WithValue r.Context k v)).Context.Value k2 = r.Context.Value k2 ∧
    (∀ U : GoType, GetStoreFromContext U
      (r.WithContext (Context.WithValue r.Context k v)).Context k2 =
        GetStoreFromContext U r.Context k2) ∧
    (∀ (U : GoType) (outer : Any),
      WithStore U k outer (WithStore T k v next) w r =
        next w ((r.WithContext (Context.WithValue r.Context k outer)).WithContext
          (Context.WithValue (Context.WithValue r.Context k outer) k v)) ∧
      ((r.WithContext (Context.WithValue r.Context k outer)).WithContext
          (Context.WithValue (Context.WithValue r.Context k outer) k v)).Context.Value k = v ∧
      GetStoreFromContext T
        ((r.WithContext (Context.WithValue r.Context k outer)).WithContext
          (Context.WithValue (Context.WithValue r.Context k outer) k v)).Context k =
        typeAssert T v) := by
  have hv : (r.WithContext (Context.WithValue r.Context k v)).Context.Value k2 =
      r.Context.Value k2 := by
    simp [Request.WithContext, Request.Context, Context.Value_WithValue_ne _ _ _ _ h]
  refine ⟨rfl, rfl, rfl, hv, fun U => ?_, fun U outer => ⟨rfl, ?_, ?_⟩⟩
  · simp only [GetStoreFromContext, hv]
  · simp [Request.WithContext, Request.Context, Context.Value_WithValue]
  · simp [GetStoreFromContext, Request.WithContext, Request.Context, Context.Value_WithValue]

/-- C19 with an outer layer storing 1 under "user" and an inner layer storing "abc" under
"trace": the outer value is still retrieved, and the writer is passed on untouched. -/
theorem WithStore_frame_witness :
    ("user" : ContextKey) ≠ "trace" ∧
    GetStoreFromContext (GoType.concrete ConcreteType.int)
      ((({ ctx := Context.WithValue Context.Background "user" (some (Value.int 1)) } :
        Request).WithContext (Context.WithValue
          ({ ctx := Context.WithValue Context.Background "user" (some (Value.int 1)) } :
            Request).Context "trace" (some (Value.string "abc")))).Context) "user" =
      GetStoreFromContext (GoType.concrete ConcreteType.int)
        ({ ctx := Context.WithValue Context.Background "user" (some (Value.int 1)) } :
          Request).Context "user" :=
  ⟨by decide,
    (WithStore_frame (GoType.concrete ConcreteType.string) "trace" "user"
      (some (Value.string "abc")) (by decide) (fun w _ => w) {}
      { ctx := Context.WithValue Context.Background "user" (some (Value.int 1)) }).2.2.2.2.1
      (GoType.concrete ConcreteType.int)⟩

/-! ## Theorems: header_writer.go -/

/-- Deleting one name leaves the lookup of every other name as it was. -/
theorem Header.lookup_Del (h : Header) (key name : String)
    (hne : name ≠ CanonicalMIMEHeaderKey key) :
    List.lookup name (Header.Del h key) = List.lookup name h := by
  induction h with
  | nil => rfl
  | cons kv h ih =>
    obtain ⟨k, vs⟩ := kv
    unfold Header.Del at ih ⊢
    by_cases hk : k = CanonicalMIMEHeaderKey key
    · have hnk : (name == k) = false := by simp [hk, hne]
      simp [List.filter_cons, hk, List.lookup_cons, ih]
      rw [← hk, hnk]
    · by_cases hn : name = k
      · simp [List.filter_cons, hk, List.lookup_cons, hn]
      · simp [List.filter_cons, hk, List.lookup_cons, hn, ih]

/-- The lookup of a name after `Set`. -/
theorem Header.lookup_Set (h : Header) (key value name : String) :
    List.lookup name (Header.Set h key value) =
      if name = CanonicalMIMEHeaderKey key then some [value] else List.lookup name h := by
  unfold Header.Set
  by_cases hn : name = CanonicalMIMEHeaderKey key
  · simp [List.lookup_cons, hn]
  · have hb : (name == CanonicalMIMEHeaderKey key) = false := by simp [hn]
    simp only [List.lookup_cons, hb, hn, if_false]
    exact Header.lookup_Del h key name hn

/-- The loop over the fields touches only the header collection of the writer. -/
theorem setResponseHeaders_frame (w : Sink) (headers : List HdrField) :
    (setResponseHeaders w headers).calls = w.calls ∧
      (setResponseHeaders w headers).writeFails = w.writeFails := by
  induction headers generalizing w with
  | nil => exact ⟨rfl, rfl⟩
  | cons h headers ih =>
    have := ih { w with header := Header.Set w.header h.Header h.Value }
    simpa [setResponseHeaders] using this

/-- The lookup of a name after the loop over the fields: the value of the last field
with that canonical name, or what the collection held before. -/
theorem setResponseHeaders_lookup (w : Sink) (headers : List HdrField) (name : String) :
    List.lookup name (setResponseHeaders w headers).header =
      match lastValue headers name with
      | some v => some [v]
      | none => List.lookup name w.header := by
  induction headers generalizing w with
  | nil => rfl
  | cons h headers ih =>
    simp only [setResponseHeaders, lastValue]
    rw [ih]
    cases hl : lastValue headers name with
    | some v => rfl
    | none =>
      simp only [Header.lookup_Set]
      by_cases hn : name = CanonicalMIMEHeaderKey h.Header
      · simp [hn]
      · have hn2 : ¬ CanonicalMIMEHeaderKey h.Header = name := fun e => hn e.symm
        simp [hn, hn2]

/-- No field of the list has the canonical name exactly when there is no last value. -/
theorem lastValue_eq_none (headers : List HdrField) (name : String) :
    lastValue headers name = none ↔ ∀ h ∈ headers, CanonicalMIMEHeaderKey h.Header ≠ name := by
  induction headers with
  | nil => simp [lastValue]
  | cons h headers ih =>
    simp only [lastValue, List.mem_cons, forall_eq_or_imp]
    cases hl : lastValue headers name with
    | some v =>
      have : ¬ ∀ a ∈ headers, CanonicalMIMEHeaderKey a.Header ≠ name := by
        intro hall; rw [ih.mpr hall] at hl; cases hl
      simp [this]
    | none =>
      have hall := ih.mp hl
      by_cases hn : CanonicalMIMEHeaderKey h.Header = name
      · simp [hn]
      · simp only [hn, if_false, ne_eq, not_false_eq_true, true_and, true_iff]
        exact hall

/-- When every name of the list is in canonical form, the last field with a canonical
name is the last field with exactly that name. -/
theorem lastValue_eq_exact (headers : List HdrField) (name : String)
    (hc : ∀ h ∈ headers, CanonicalMIMEHeaderKey h.Header = h.Header) :
    lastValue headers name = lastValueExact headers name := by
  induction headers with
  | nil => rfl
  | cons h headers ih =>
    have ih2 := ih (fun a ha => hc a (List.mem_cons_of_mem _ ha))
    simp only [lastValue, lastValueExact, ih2, hc h (List.mem_cons_self _ _)]

/-- C11, as stated, fails: with the fields ("X-Test-Header", "Foo") and
("x-test-header", "Bar") the last field of the list named "X-Test-Header" has the value
"Foo", yet when next is called the header collection maps "X-Test-Header" to "Bar",
because Set puts every name in canonical form. -/
theorem WithResponseHeaders_case_variants :
    lastValueExact [HeaderField "X-Test-Header" "Foo", HeaderField "x-test-header" "Bar"]
      "X-Test-Header" = some "Foo" ∧
    (∀ (next : Handler) (w : Sink) (r : Request),
      WithResponseHeaders
        [HeaderField "X-Test-Header" "Foo", HeaderField "x-test-header" "Bar"] next w r =
      next (setResponseHeaders w
        [HeaderField "X-Test-Header" "Foo", HeaderField "x-test-header" "Bar"]) r) ∧
    (setResponseHeaders {}
      [HeaderField "X-Test-Header" "Foo", HeaderField "x-test-header" "Bar"]).header =
      [("X-Test-Header", ["Bar"])] ∧
    Header.Get (setResponseHeaders {}
      [HeaderField "X-Test-Header" "Foo", HeaderField "x-test-header" "Bar"]).header
      "X-Test-Header" = "Bar" := by
  refine ⟨by decide, fun _ _ _ => rfl, by decide, by decide⟩

/-- C11, amended: for every list of header fields h1..hn and every next handler, the
handler WithResponseHeaders(h1..hn)(next) calls next once, with the same request and the
same writer, on which only the header collection was changed; at that moment the
collection maps the canonical form of each name hi.Header to the value of the last field
of the list whose name has that canonical form (names are compared in canonical MIME form,
so without regard to letter case), and every name that is the canonical form of no field
is mapped as before.  When all names of the list are in canonical form this is the last
field with exactly that name; with the fields of the test, X-Test-Header is Foo and
Content-Type is text/plain. -/
theorem WithResponseHeaders_sets (headers : List HdrField) (next : Handler) (w : Sink)
    (r : Request) :
    WithResponseHeaders headers next w r = next (setResponseHeaders w headers) r ∧
    (setResponseHeaders w headers).calls = w.calls ∧
    (∀ name : String, List.lookup name (setResponseHeaders w headers).header =
      match lastValue headers name with
      | some v => some [v]
      | none => List.lookup name w.header) ∧
    (∀ h ∈ headers, ∃ v : String,
      lastValue headers (CanonicalMIMEHeaderKey h.Header) = some v ∧
      Header.Get (setResponseHeaders w headers).header h.Header = v) ∧
    (∀ name : String, (∀ h ∈ headers, CanonicalMIMEHeaderKey h.Header ≠ name) →
      List.lookup name (setResponseHeaders w headers).header = List.lookup name w.header) ∧
    ((∀ h ∈ headers, CanonicalMIMEHeaderKey h.Header = h.Header) →
      ∀ name : String, lastValue headers name = lastValueExact headers name) ∧
    Header.Get (setResponseHeaders {}
      [HeaderField "X-Test-Header" "Foo", HeaderField "Content-Type" "text/plain"]).header
      "X-Test-Header" = "Foo" ∧
    Header.Get (setResponseHeaders {}
      [HeaderField "X-Test-Header" "Foo", HeaderField "Content-Type" "text/plain"]).header
      "Content-Type" = "text/plain" := by
  refine ⟨rfl, (setResponseHeaders_frame w headers).1, setResponseHeaders_lookup w headers,
    fun h hh => ?_, fun name hn => ?_, fun hc name => lastValue_eq_exact headers name hc,
    by decide, by decide⟩
  · cases hl : lastValue headers (CanonicalMIMEHeaderKey h.Header) with
    | none => exact absurd rfl ((lastValue_eq_none headers _).mp hl h hh)
    | some v =>
      refine ⟨v, rfl, ?_⟩
      simp [Header.Get, setResponseHeaders_lookup, hl]
  · rw [setResponseHeaders_lookup, (lastValue_eq_none headers name).mpr hn]

/-! ## Theorems: headers and schedules of WithTimeout -/

/-- The calls `http.Error` makes on the writer. -/
theorem httpError_calls (w : Sink) (error : Bytes) (code : Int) :
    (httpError w error code).calls =
      w.calls ++ [SinkCall.WriteHeader code, SinkCall.Write (error ++ [10])] := by
  simp [httpError, Sink.Write, Sink.WriteHeader]

/-- The header fields `http.Error` leaves alone: every name other than the three it
deletes or sets. -/
theorem httpError_lookup (w : Sink) (error : Bytes) (code : Int) (name : String)
    (h1 : name ≠ "Content-Length") (h2 : name ≠ "Content-Type")
    (h3 : name ≠ "X-Content-Type-Options") :
    List.lookup name (httpError w error code).header = List.lookup name w.header := by
  have c1 : CanonicalMIMEHeaderKey "Content-Length" = "Content-Length" := by decide
  have c2 : CanonicalMIMEHeaderKey "Content-Type" = "Content-Type" := by decide
  have c3 : CanonicalMIMEHeaderKey "X-Content-Type-Options" = "X-Content-Type-Options" := by
    decide
  have e : (httpError w error code).header =
      Header.Set (Header.Set (Header.Del w.header "Content-Length") "Content-Type"
        "text/plain; charset=utf-8") "X-Content-Type-Options" "nosniff" := by
    simp [httpError, Sink.Write, Sink.WriteHeader]
  rw [e, Header.lookup_Set, Header.lookup_Set, c2, c3, if_neg h3, if_neg h2]
  exact Header.lookup_Del _ _ _ (by rw [c1]; exact h1)

/-- The content type after `http.Error`. -/
theorem httpError_content_type (w : Sink) (error : Bytes) (code : Int) :
    Header.Get (httpError w error code).header "Content-Type" =
      "text/plain; charset=utf-8" := by
  have c2 : CanonicalMIMEHeaderKey "Content-Type" = "Content-Type" := by decide
  have c3 : CanonicalMIMEHeaderKey "X-Content-Type-Options" = "X-Content-Type-Options" := by
    decide
  have e : (httpError w error code).header =
      Header.Set (Header.Set (Header.Del w.header "Content-Length") "Content-Type"
        "text/plain; charset=utf-8") "X-Content-Type-Options" "nosniff" := by
    simp [httpError, Sink.Write, Sink.WriteHeader]
  have hne : ("Content-Type" : String) ≠ "X-Content-Type-Options" := by decide
  simp only [Header.Get, e, c2, Header.lookup_Set, c3, if_neg hne, if_true]

/-- After `Del` the collection has no entry under the canonical form of the name. -/
theorem Header.lookup_Del_self (h : Header) (key : String) :
    List.lookup (CanonicalMIMEHeaderKey key) (Header.Del h key) = none := by
  induction h with
  | nil => rfl
  | cons kv h ih =>
    obtain ⟨k, vs⟩ := kv
    unfold Header.Del at ih ⊢
    by_cases hk : k = CanonicalMIMEHeaderKey key
    · simpa [List.filter_cons, hk] using ih
    · have hb : (CanonicalMIMEHeaderKey key == k) = false := by
        simp only [beq_eq_false_iff_ne, ne_eq]
        exact fun e => hk e.symm
      simp only [List.filter_cons, bne_iff_ne, ne_eq, hk, not_false_eq_true, decide_True,
        if_true, List.lookup_cons, hb]
      simpa using ih

/-- The header collection after `http.Error`. -/
theorem httpError_header (w : Sink) (error : Bytes) (code : Int) :
    (httpError w error code).header =
      Header.Set (Header.Set (Header.Del w.header "Content-Length") "Content-Type"
        "text/plain; charset=utf-8") "X-Content-Type-Options" "nosniff" := by
  simp [httpError, Sink.Write, Sink.WriteHeader]

/-- After `http.Error` the field X-Content-Type-Options is nosniff. -/
theorem httpError_nosniff (w : Sink) (error : Bytes) (code : Int) :
    Header.Get (httpError w error code).header "X-Content-Type-Options" = "nosniff" ∧
    List.lookup "X-Content-Type-Options" (httpError w error code).header =
      some ["nosniff"] := by
  have c3 : CanonicalMIMEHeaderKey "X-Content-Type-Options" = "X-Content-Type-Options" := by
    decide
  simp only [Header.Get, httpError_header, c3, Header.lookup_Set, if_true, and_self]

/-- After `http.Error` the collection has the one Content-Type value of the reply. -/
theorem httpError_content_type_entry (w : Sink) (error : Bytes) (code : Int) :
    List.lookup "Content-Type" (httpError w error code).header =
      some ["text/plain; charset=utf-8"] := by
  have c2 : CanonicalMIMEHeaderKey "Content-Type" = "Content-Type" := by decide
  have c3 : CanonicalMIMEHeaderKey "X-Content-Type-Options" = "X-Content-Type-Options" := by
    decide
  have hne : ("Content-Type" : String) ≠ "X-Content-Type-Options" := by decide
  simp only [httpError_header, c2, Header.lookup_Set, c3, if_neg hne, if_true]

/-- After `http.Error` the collection has no Content-Length field. -/
theorem httpError_content_length (w : Sink) (error : Bytes) (code : Int) :
    List.lookup "Content-Length" (httpError w error code).header = none ∧
    Header.Get (httpError w error code).header "Content-Length" = "" := by
  have c1 : CanonicalMIMEHeaderKey "Content-Length" = "Content-Length" := by decide
  have c2 : CanonicalMIMEHeaderKey "Content-Type" = "Content-Type" := by decide
  have c3 : CanonicalMIMEHeaderKey "X-Content-Type-Options" = "X-Content-Type-Options" := by
    decide
  have n2 : ("Content-Length" : String) ≠ "Content-Type" := by decide
  have n3 : ("Content-Length" : String) ≠ "X-Content-Type-Options" := by decide
  have hd := Header.lookup_Del_self w.header "Content-Length"
  rw [c1] at hd
  have hl : List.lookup "Content-Length" (httpError w error code).header = none := by
    rw [httpError_header, Header.lookup_Set, Header.lookup_Set, c2, c3, if_neg n3, if_neg n2]
    exact hd
  refine ⟨hl, ?_⟩
  simp only [Header.Get, c1, hl]

/-- C18, as stated, fails: a handler that sets Content-Type to application/json through
the buffered writer has the field on the sink at once, but the timeout branch replaces
it: after the branch the sink has Content-Type text/plain; charset=utf-8. -/
theorem timeout_replaces_content_type :
    Header.Get ((newTimeoutResponseWriter {}).HeaderSet "Content-Type"
      "application/json").w.header "Content-Type" = "application/json" ∧
    Header.Get (WithTimeout.caseCtxDone ((newTimeoutResponseWriter {}).HeaderSet
      "Content-Type" "application/json")).w.header "Content-Type" =
      "text/plain; charset=utf-8" := by
  decide

/-- C18, amended: Header() of the buffered writer is the header collection of the
underlying sink in every state of the writer, also when timedOut is set, so a field the
handler sets through the buffered writer is set on the sink at once and no buffer field
changes; marking the writer timedOut leaves the collection as it is, and the timeout
reply that follows leaves every field in place whose name is not Content-Length,
Content-Type or X-Content-Type-Options, the three names http.Error deletes or sets.
Whatever the handler had set under these three names is gone after the reply:
Content-Type is overwritten with text/plain; charset=utf-8, X-Content-Type-Options is
overwritten with nosniff, and Content-Length is deleted. -/
theorem Header_not_buffered (trw : timeoutResponseWriter) (key value : String)
    (h1 : CanonicalMIMEHeaderKey key ≠ "Content-Length")
    (h2 : CanonicalMIMEHeaderKey key ≠ "Content-Type")
    (h3 : CanonicalMIMEHeaderKey key ≠ "X-Content-Type-Options") :
    trw.Header = trw.w.header ∧
    (WithTimeout.markTimedOut trw).Header = trw.w.header ∧
    (trw.HeaderSet key value).w.header = Header.Set trw.w.header key value ∧
    Header.Get (trw.HeaderSet key value).w.header key = value ∧
    ((trw.HeaderSet key value).buf = trw.buf ∧ (trw.HeaderSet key value).status = trw.status ∧
      (trw.HeaderSet key value).wroteHdr = trw.wroteHdr ∧
      (trw.HeaderSet key value).timedOut = trw.timedOut ∧
      (trw.HeaderSet key value).w.calls = trw.w.calls) ∧
    (WithTimeout.markTimedOut (trw.HeaderSet key value)).w.header =
      (trw.HeaderSet key value).w.header ∧
    Header.Get (WithTimeout.caseCtxDone (trw.HeaderSet key value)).w.header key = value ∧
    (∀ name : String, name ≠ "Content-Length" → name ≠ "Content-Type" →
      name ≠ "X-Content-Type-Options" →
      List.lookup name (WithTimeout.caseCtxDone trw).w.header =
        List.lookup name trw.w.header) ∧
    Header.Get (WithTimeout.caseCtxDone trw).w.header "Content-Type" =
      "text/plain; charset=utf-8" ∧
    (∀ (u : timeoutResponseWriter) (v : String),
      List.lookup "Content-Type"
        (WithTimeout.caseCtxDone (u.HeaderSet "Content-Type" v)).w.header =
        some ["text/plain; charset=utf-8"] ∧
      List.lookup "X-Content-Type-Options"
        (WithTimeout.caseCtxDone (u.HeaderSet "X-Content-Type-Options" v)).w.header =
        some ["nosniff"] ∧
      Header.Get (WithTimeout.caseCtxDone
        (u.HeaderSet "X-Content-Type-Options" v)).w.header "X-Content-Type-Options" =
        "nosniff" ∧
      List.lookup "Content-Length"
        (WithTimeout.caseCtxDone (u.HeaderSet "Content-Length" v)).w.header = none ∧
      Header.Get (WithTimeout.caseCtxDone
        (u.HeaderSet "Content-Length" v)).w.header "Content-Length" = "") ∧
    List.lookup "Content-Type" (WithTimeout.caseCtxDone trw).w.header =
      some ["text/plain; charset=utf-8"] ∧
    List.lookup "X-Content-Type-Options" (WithTimeout.caseCtxDone trw).w.header =
      some ["nosniff"] ∧
    List.lookup "Content-Length" (WithTimeout.caseCtxDone trw).w.header = none := by
  have hset : Header.Get (Header.Set trw.w.header key value) key = value := by
    simp [Header.Get, Header.lookup_Set]
  refine ⟨rfl, rfl, rfl, hset, ⟨rfl, rfl, rfl, rfl, rfl⟩, rfl, ?_,
    fun name n1 n2 n3 => ?_, ?_,
    fun u v => ⟨httpError_content_type_entry _ _ _, (httpError_nosniff _ _ _).2,
      (httpError_nosniff _ _ _).1, (httpError_content_length _ _ _).1,
      (httpError_content_length _ _ _).2⟩,
    httpError_content_type_entry _ _ _, (httpError_nosniff _ _ _).2,
    (httpError_content_length _ _ _).1⟩
  · have hl := httpError_lookup (trw.HeaderSet key value).w (bytesOf "Request timed out")
      StatusGatewayTimeout (CanonicalMIMEHeaderKey key) h1 h2 h3
    have hw : (WithTimeout.caseCtxDone (trw.HeaderSet key value)).w =
        httpError (trw.HeaderSet key value).w (bytesOf "Request timed out")
          StatusGatewayTimeout := rfl
    have hh : (trw.HeaderSet key value).w.header = Header.Set trw.w.header key value := rfl
    simp only [Header.Get, hw, hl, hh, Header.lookup_Set, if_true]
  · exact httpError_lookup trw.w _ _ name n1 n2 n3
  · exact httpError_content_type trw.w _ _

/-- The amended C18 for a handler that set X-Request-Id before the timeout branch ran. -/
theorem Header_not_buffered_witness :
    CanonicalMIMEHeaderKey "X-Request-Id" ≠ "Content-Length" ∧
    CanonicalMIMEHeaderKey "X-Request-Id" ≠ "Content-Type" ∧
    CanonicalMIMEHeaderKey "X-Request-Id" ≠ "X-Content-Type-Options" ∧
    Header.Get (WithTimeout.caseCtxDone ((newTimeoutResponseWriter {}).HeaderSet
      "X-Request-Id" "42")).w.header "X-Request-Id" = "42" :=
  ⟨by decide, by decide, by decide,
    (Header_not_buffered (newTimeoutResponseWriter {}) "X-Request-Id" "42"
      (by decide) (by decide) (by decide)).2.2.2.2.2.2.1⟩

/-- The branch `case <-ctx.Done():` is the mark followed by the timeout reply. -/
theorem caseCtxDone_eq (trw : timeoutResponseWriter) :
    WithTimeout.caseCtxDone trw = WithTimeout.writeTimeout (WithTimeout.markTimedOut trw) :=
  rfl

/-- The sink at the end of a run that took the branch `case <-ctx.Done():` received
the timeout reply and nothing else, wherever the calls of the handler fall. -/
theorem serve_expired_calls (w : Sink) (before between after : List HandlerCall) :
    (WithTimeout.serve w (Schedule.expired before between after)).w.calls =
      w.calls ++ timeoutReply := by
  simp only [WithTimeout.serve]
  rw [(run_frame _ after).1]
  simp only [WithTimeout.writeTimeout]
  rw [httpError_calls, (run_frame _ between).1]
  simp only [WithTimeout.markTimedOut]
  rw [(run_frame _ before).1]
  rfl

/-- The sink at the end of a run that took the branch `case <-done:` received the
recorded status, the buffered bytes, and a 500 status when the write failed. -/
theorem serve_done_calls (w : Sink) (cs : List HandlerCall) :
    (WithTimeout.serve w (Schedule.done cs)).w.calls =
      w.calls ++ [SinkCall.WriteHeader ((newTimeoutResponseWriter w).run cs).status,
        SinkCall.Write ((newTimeoutResponseWriter w).run cs).buf] ++
        (if w.writeFails
            (w.calls ++ [SinkCall.WriteHeader ((newTimeoutResponseWriter w).run cs).status])
            ((newTimeoutResponseWriter w).run cs).buf
          then [SinkCall.WriteHeader 500] else []) := by
  have hf := run_frame (newTimeoutResponseWriter w) cs
  have hw : ((newTimeoutResponseWriter w).run cs).w = w := hf.1
  have ht : ((newTimeoutResponseWriter w).run cs).timedOut = false := hf.2
  simp only [WithTimeout.serve, WithTimeout.caseDone]
  rw [Flush_calls _ ht, hw]
  rfl

/-- C13, as stated, fails: on a sink whose Write reports an error, the run in which the
handler wrote "OK" and finished before the deadline commits two statuses on the sink, 200
and then 500. -/
theorem serve_done_failing_sink :
    (WithTimeout.serve failingSink
      (Schedule.done [HandlerCall.Write (bytesOf "OK")])).w.calls =
      [SinkCall.WriteHeader 200, SinkCall.Write (bytesOf "OK"), SinkCall.WriteHeader 500] ∧
    statuses (WithTimeout.serve failingSink
      (Schedule.done [HandlerCall.Write (bytesOf "OK")])).w.calls = [200, 500] := by
  decide

/-- C13, amended: for every interleaving of the handler's WriteHeader and Write calls with
the one branch of the select that is taken, the sink is written by that branch only.  If
the deadline branch is taken, the sink receives exactly the timeout reply (one status 504
and one body), wherever the handler's calls fall: before the mark, between the mark and
the reply, or after it.  If the handler finished first and made at least one call, the
sink receives the status the handler committed and, in one Write, all the bytes it wrote;
nothing else when that Write reports no error, and one further WriteHeader(500) when it
reports an error.  In every run the calls received are those of one branch, never a
mixture of both. -/
theorem WithTimeout_one_outcome (w : Sink) :
    (∀ before between after : List HandlerCall,
      (WithTimeout.serve w (Schedule.expired before between after)).w.calls =
        w.calls ++ timeoutReply) ∧
    statuses timeoutReply = [504] ∧
    written timeoutReply = bytesOf "Request timed out" ++ [10] ∧
    (∀ cs : List HandlerCall, cs ≠ [] → ∃ s : Int, committedStatus cs = some s ∧
      (WithTimeout.serve w (Schedule.done cs)).w.calls =
        w.calls ++ [SinkCall.WriteHeader s, SinkCall.Write (writtenBytes cs)] ++
          (if w.writeFails (w.calls ++ [SinkCall.WriteHeader s]) (writtenBytes cs)
            then [SinkCall.WriteHeader 500] else [])) ∧
    (∀ sched : Schedule, ∃ new : List SinkCall,
      (WithTimeout.serve w sched).w.calls = w.calls ++ new ∧
      (new = timeoutReply ∨ ∃ (s : Int) (body : Bytes),
        new = [SinkCall.WriteHeader s, SinkCall.Write body] ∨
        new = [SinkCall.WriteHeader s, SinkCall.Write body, SinkCall.WriteHeader 500])) := by
  refine ⟨serve_expired_calls w, by decide, by decide, fun cs hne => ?_, fun sched => ?_⟩
  · obtain ⟨s, hs⟩ : ∃ s, committedStatus cs = some s := by
      cases cs with
      | nil => exact absurd rfl hne
      | cons c cs => cases c <;> exact ⟨_, rfl⟩
    have hr := run_fresh w cs s hs
    refine ⟨s, hs, ?_⟩
    rw [serve_done_calls, hr.1, hr.2.2]
  · cases sched with
    | expired before between after =>
      exact ⟨timeoutReply, serve_expired_calls w before between after, Or.inl rfl⟩
    | done cs =>
      by_cases he : w.writeFails
          (w.calls ++ [SinkCall.WriteHeader ((newTimeoutResponseWriter w).run cs).status])
          ((newTimeoutResponseWriter w).run cs).buf = true
      · refine ⟨_, ?_, Or.inr ⟨((newTimeoutResponseWriter w).run cs).status,
          ((newTimeoutResponseWriter w).run cs).buf, Or.inr rfl⟩⟩
        rw [serve_done_calls, if_pos he]; simp
      · refine ⟨_, ?_, Or.inr ⟨((newTimeoutResponseWriter w).run cs).status,
          ((newTimeoutResponseWriter w).run cs).buf, Or.inl rfl⟩⟩
        rw [serve_done_calls, if_neg he]; simp

end Middleware
